import Mathlib

/-!
Shallow embedding of the manager lifecycle and orphan-recovery subsystem of
QCFractal (src/qcfractal/components/managers/sockets.py), together with proofs
about its operations: activate, update_resource_stats, deactivate and get.

Modelling conventions:
- datetimes are modelled as natural numbers; each operation that calls
  datetime.utcnow() internally receives the current time as a parameter `now`;
- Python floats are only stored and copied by this subsystem (never computed
  with), so numeric counter values are modelled as integers;
- the column that Python can set either to a number or (as the source does on
  one line) to a one-element tuple is modelled by the sum type PyVal;
- the database is a DBState value; an operation that raises inside its
  transaction returns Except.error, meaning the transaction rolls back and the
  state is unchanged;
- the external task subsystem call records.reset_assigned is modelled by
  appending the manager name to the journal DBState.taskReleases, recording
  one invocation per appended name;
- Python dicts are modelled as association lists in iteration order.
-/

namespace QCFractal

/-- Status of a compute manager: the enum has exactly the two values used by
the subsystem. -/
inductive ManagerStatusEnum where
  | active
  | inactive
deriving DecidableEq

/-- A value stored in the total_task_walltime column: either a plain number,
or a one-element tuple as produced by line 135 of sockets.py, which assigns
the Python expression writing a trailing comma after the value. -/
inductive PyVal where
  | plain (v : Int)
  | tuple1 (v : Int)
deriving DecidableEq

/-- One row of the manager log (ComputeManagerLogORM): a point-in-time copy of
the counters of a manager, with a timestamp. -/
structure ComputeManagerLogORM where
  claimed : Int
  successes : Int
  failures : Int
  rejected : Int
  total_worker_walltime : Int
  total_task_walltime : PyVal
  active_tasks : Int
  active_cores : Int
  active_memory : Int
  timestamp : Nat
deriving DecidableEq

/-- One row of the manager table (ComputeManagerORM), with its one-to-many
log collection inlined as a list in insertion order. -/
structure ComputeManagerORM where
  id : Nat
  name : String
  cluster : String
  hostname : String
  username : Option String
  tags : List String
  programs : List (String × Option String)
  status : ManagerStatusEnum
  manager_version : String
  qcengine_version : String
  claimed : Int
  successes : Int
  failures : Int
  rejected : Int
  total_worker_walltime : Int
  total_task_walltime : PyVal
  active_tasks : Int
  active_cores : Int
  active_memory : Int
  created_on : Nat
  modified_on : Nat
  log : List ComputeManagerLogORM
deriving DecidableEq

/-- The persistent store as seen by this subsystem: the manager table (rows in
insertion order), the id sequence, and a journal of the invocations of the
task subsystem operation that releases the tasks assigned to a manager name
(one list element per invocation, in order). -/
structure DBState where
  managers : List ComputeManagerORM
  nextId : Nat
  taskReleases : List String
deriving DecidableEq

/-- The name triple a manager presents on activation (ManagerName). -/
structure ManagerName where
  fullname : String
  cluster : String
  hostname : String
deriving DecidableEq

/-- The error taxonomy of the subsystem, one constructor per distinct failure
of the source (the source raises ComputeManagerError or RuntimeError; the
spec names them InvalidManagerConfig, DuplicateManagerError,
UnknownManagerError, InactiveManagerError, RequestTooLargeError,
NotFoundError). -/
inductive ManagerError where
  | invalidManagerConfig
  | duplicateManager
  | unknownManager
  | inactiveManager
  | requestTooLarge
  | notFound
deriving DecidableEq

/-- save_snapshot (sockets.py lines 33-52): builds a log row from the current
counters of the manager row, timestamped with the row's modified_on, and
appends it to the manager's log. -/
def save_snapshot (orm : ComputeManagerORM) : ComputeManagerORM :=
  let log_orm : ComputeManagerLogORM :=
    { claimed := orm.claimed
      successes := orm.successes
      failures := orm.failures
      rejected := orm.rejected
      total_worker_walltime := orm.total_worker_walltime
      total_task_walltime := orm.total_task_walltime
      active_tasks := orm.active_tasks
      active_cores := orm.active_cores
      active_memory := orm.active_memory
      timestamp := orm.modified_on }
  { orm with log := orm.log ++ [log_orm] }

/-- Model of Python str.lower(): lower-case the string character by
character (defined over the character list so it is kernel-computable). -/
def pyLower (s : String) : String := ⟨s.data.map Char.toLower⟩

/-- Model of Python list(dict.fromkeys(l)): insert each element in turn,
keeping the first occurrence and ignoring later duplicates. -/
def pyDedup (l : List String) : List String :=
  l.foldl (fun acc x => if x ∈ acc then acc else acc ++ [x]) []

/-- Model of inserting a key into a Python dict: if the key is present its
value is overwritten in place (iteration position kept), otherwise the pair
is appended. -/
def dictInsert (m : List (String × Option String)) (k : String) (v : Option String) :
    List (String × Option String) :=
  if m.any (fun p => p.1 = k) then
    m.map (fun p => if p.1 = k then (p.1, v) else p)
  else
    m ++ [(k, v)]

/-- Model of the dict comprehension on line 71 of sockets.py: keep the pairs
with a non-empty key, lower-casing each key, with dict insertion semantics. -/
def pyProgramsComp (ps : List (String × Option String)) : List (String × Option String) :=
  ps.foldl (fun acc p => if 0 < p.1.length then dictInsert acc (pyLower p.1) p.2 else acc) []

/-- activate (sockets.py lines 54-102): filter and lower-case the tags, build
the programs dict with empty keys dropped and keys lower-cased, reject empty
tag or program sets, deduplicate the tags keeping first-seen order, reject a
duplicate name, and otherwise insert one new row with status active and
return its newly assigned id. Counter columns start at their defaults. -/
def activate (db : DBState) (now : Nat) (name_data : ManagerName)
    (manager_version qcengine_version : String) (username : Option String)
    (programs : List (String × Option String)) (tags : List String) :
    Except ManagerError (DBState × Nat) :=
  let tags1 := (tags.filter (fun x => 0 < x.length)).map pyLower
  let programs1 := pyProgramsComp programs
  if tags1.length = 0 then
    .error .invalidManagerConfig
  else if programs1.length = 0 then
    .error .invalidManagerConfig
  else
    let tags2 := pyDedup tags1
    if 0 < (db.managers.filter (fun m => m.name = name_data.fullname)).length then
      .error .duplicateManager
    else
      let manager_orm : ComputeManagerORM :=
        { id := db.nextId
          name := name_data.fullname
          cluster := name_data.cluster
          hostname := name_data.hostname
          username := username
          tags := tags2
          programs := programs1
          status := .active
          manager_version := manager_version
          qcengine_version := qcengine_version
          claimed := 0
          successes := 0
          failures := 0
          rejected := 0
          total_worker_walltime := 0
          total_task_walltime := .plain 0
          active_tasks := 0
          active_cores := 0
          active_memory := 0
          created_on := now
          modified_on := now
          log := [] }
      .ok ({ db with managers := db.managers ++ [manager_orm], nextId := db.nextId + 1 },
           db.nextId)

/-- update_resource_stats (sockets.py lines 104-141): look up the row by name
(raise if absent), reject a non-active manager, then overwrite the resource
counters — note line 135 assigns a one-element tuple to total_task_walltime —
set modified_on to now, and append one log snapshot via save_snapshot. -/
def update_resource_stats (db : DBState) (now : Nat) (name : String)
    (total_worker_walltime total_task_walltime : Int)
    (active_tasks active_cores : Int) (active_memory : Int) :
    Except ManagerError DBState :=
  match db.managers.find? (fun m => m.name = name) with
  | none => .error .unknownManager
  | some manager =>
    if manager.status ≠ ManagerStatusEnum.active then
      .error .inactiveManager
    else
      let manager1 := { manager with
        total_worker_walltime := total_worker_walltime
        total_task_walltime := PyVal.tuple1 total_task_walltime
        active_tasks := active_tasks
        active_cores := active_cores
        active_memory := active_memory
        modified_on := now }
      let manager2 := save_snapshot manager1
      .ok { db with managers := db.managers.map (fun m => if m.name = name then manager2 else m) }

/-- Python truthiness of the optional name argument of deactivate: None and
the empty list are falsy, a non-empty list is truthy. -/
def nameSupplied : Option (List String) → Bool
  | none => false
  | some ns => !ns.isEmpty

/-- The WHERE clause of the conditional update in deactivate (sockets.py
lines 183-188): status is active AND every supplied filter matches (the name
filter only constrains when a truthy list was passed). -/
def deactivateCond (name : Option (List String)) (modified_before : Option Nat)
    (m : ComputeManagerORM) : Bool :=
  decide (m.status = ManagerStatusEnum.active)
    && (match name with
        | none => true
        | some ns => if ns.isEmpty then true else ns.contains m.name)
    && (match modified_before with
        | none => true
        | some t => decide (m.modified_on < t))

/-- deactivate (sockets.py lines 143-201): with no truthy filter it returns
the empty list and touches nothing; otherwise one conditional update flips
every matching active row to inactive with modified_on set to now, returns
exactly the names transitioned, and invokes the task-release operation once
per transitioned name (journalled in taskReleases). -/
def deactivate (db : DBState) (now : Nat) (name : Option (List String))
    (modified_before : Option Nat) : DBState × List String :=
  if !nameSupplied name && modified_before.isNone then
    (db, [])
  else
    let deactivated_names :=
      (db.managers.filter (deactivateCond name modified_before)).map (fun m => m.name)
    let managers1 := db.managers.map (fun m =>
      if deactivateCond name modified_before m then
        { m with status := ManagerStatusEnum.inactive, modified_on := now }
      else m)
    ({ db with managers := managers1, taskReleases := db.taskReleases ++ deactivated_names },
     deactivated_names)

/-- Modelled from the spec: the helper get_general (db_socket/helpers.py, not
under src/) looks each name up in order, yielding the row or, with missing_ok,
a None placeholder; with missing_ok false any absent name fails the whole
batch with NotFoundError. -/
def get_general (db : DBState) (names : List String) (missing_ok : Bool) :
    Except ManagerError (List (Option ComputeManagerORM)) :=
  let found := names.map (fun n => db.managers.find? (fun m => m.name = n))
  if !missing_ok && found.any (fun r => r.isNone) then
    .error .notFound
  else
    .ok found

/-- get (sockets.py lines 203-247): if more names are requested than the
configured manager response limit, fail before touching storage; otherwise
delegate to get_general. -/
def get (db : DBState) (manager_limit : Nat) (names : List String) (missing_ok : Bool) :
    Except ManagerError (List (Option ComputeManagerORM)) :=
  if manager_limit < names.length then
    .error .requestTooLarge
  else
    get_general db names missing_ok

/-! ## Spec-side definitions (for refinement comparisons) -/

/-- Spec-side deduplication, written directly from the spec's words: keep the
first occurrence of each element, erasing all later duplicates. Used to
compare with pyDedup, which models what the source actually does. -/
def specDedup : List String → List String
  | [] => []
  | x :: xs => x :: specDedup (xs.filter (fun y => y ≠ x))
termination_by l => l.length
decreasing_by
  simp only [List.length_cons]
  exact Nat.lt_succ_of_le (List.length_filter_le _ _)

/-- The filter condition of the amended C1 claim, stated as the spec would: a
manager is transitioned exactly when its status is active and every supplied
(truthy) filter matches — the conjunction, not the disjunction, of the name
and staleness conditions. -/
def matchesSuppliedFilters (name : Option (List String)) (modified_before : Option Nat)
    (m : ComputeManagerORM) : Prop :=
  m.status = ManagerStatusEnum.active ∧
  (∀ ns, name = some ns → ns ≠ [] → m.name ∈ ns) ∧
  (∀ t, modified_before = some t → m.modified_on < t)

/-! ## Concrete fixtures used by witnesses and counterexamples -/

/-- A concrete manager row with the given name, status and modified_on. -/
def mkMgr (nm : String) (st : ManagerStatusEnum) (mod : Nat) : ComputeManagerORM :=
  { id := 0
    name := nm
    cluster := "c"
    hostname := "h"
    username := none
    tags := ["t"]
    programs := [("p", none)]
    status := st
    manager_version := "v1"
    qcengine_version := "v2"
    claimed := 11
    successes := 7
    failures := 3
    rejected := 1
    total_worker_walltime := 100
    total_task_walltime := .plain 200
    active_tasks := 5
    active_cores := 6
    active_memory := 7
    created_on := 0
    modified_on := mod
    log := [] }

/-- A concrete store holding one active manager named m1, last modified at
time 10. -/
def dbA : DBState :=
  { managers := [mkMgr "m1" ManagerStatusEnum.active 10], nextId := 1, taskReleases := [] }

/-- A concrete store holding one inactive manager named m0. -/
def dbB : DBState :=
  { managers := [mkMgr "m0" ManagerStatusEnum.inactive 4], nextId := 5, taskReleases := [] }

/-- A concrete store with two active managers (one stale, one fresh) and an
inactive one. -/
def dbC : DBState :=
  { managers :=
      [mkMgr "m1" ManagerStatusEnum.active 10,
       mkMgr "m2" ManagerStatusEnum.active 3,
       mkMgr "m3" ManagerStatusEnum.inactive 1]
    nextId := 4
    taskReleases := ["old"] }

/-! ## Helper lemmas -/

lemma branch_false_of_sup (nameF : Option (List String)) (mb : Option Nat)
    (h : nameSupplied nameF = true ∨ mb ≠ none) :
    (!nameSupplied nameF && mb.isNone) = false := by
  rcases h with h | h
  · simp [h]
  · cases mb with
    | none => exact absurd rfl h
    | some t => simp

lemma deactivateCond_iff (nameF : Option (List String)) (mb : Option Nat)
    (m : ComputeManagerORM) :
    deactivateCond nameF mb m = true ↔ matchesSuppliedFilters nameF mb m := by
  cases nameF with
  | none =>
    cases mb with
    | none => simp [deactivateCond, matchesSuppliedFilters]
    | some t => simp [deactivateCond, matchesSuppliedFilters]
  | some ns =>
    by_cases hns : ns = []
    · subst hns
      cases mb with
      | none => simp [deactivateCond, matchesSuppliedFilters]
      | some t => simp [deactivateCond, matchesSuppliedFilters]
    · have hne : ns.isEmpty = false := by
        simp [List.isEmpty_iff, hns]
      cases mb with
      | none => simp [deactivateCond, matchesSuppliedFilters, hne, hns]
      | some t => simp [deactivateCond, matchesSuppliedFilters, hne, hns, and_assoc]

lemma deactivate_snd (db : DBState) (now : Nat) (nameF : Option (List String))
    (mb : Option Nat) (hb : (!nameSupplied nameF && mb.isNone) = false) :
    (deactivate db now nameF mb).2 =
      (db.managers.filter (deactivateCond nameF mb)).map (fun m => m.name) := by
  simp [deactivate, hb]

lemma deactivate_fst_managers (db : DBState) (now : Nat) (nameF : Option (List String))
    (mb : Option Nat) (hb : (!nameSupplied nameF && mb.isNone) = false) :
    (deactivate db now nameF mb).1.managers =
      db.managers.map (fun m =>
        if deactivateCond nameF mb m then
          { m with status := ManagerStatusEnum.inactive, modified_on := now }
        else m) := by
  simp [deactivate, hb]

lemma deactivate_fst_taskReleases (db : DBState) (now : Nat) (nameF : Option (List String))
    (mb : Option Nat) (hb : (!nameSupplied nameF && mb.isNone) = false) :
    (deactivate db now nameF mb).1.taskReleases =
      db.taskReleases ++ (deactivate db now nameF mb).2 := by
  simp [deactivate, hb]

lemma deactivate_fst_nextId (db : DBState) (now : Nat) (nameF : Option (List String))
    (mb : Option Nat) :
    (deactivate db now nameF mb).1.nextId = db.nextId := by
  by_cases hb : (!nameSupplied nameF && mb.isNone) = true
  · simp [deactivate, hb]
  · simp [deactivate, Bool.eq_false_iff.mpr hb]

lemma deactivate_find? (db : DBState) (now : Nat) (nameF : Option (List String))
    (mb : Option Nat) (n : String) (hb : (!nameSupplied nameF && mb.isNone) = false) :
    (deactivate db now nameF mb).1.managers.find? (fun m => m.name = n) =
      (db.managers.find? (fun m => m.name = n)).map (fun m =>
        if deactivateCond nameF mb m then
          { m with status := ManagerStatusEnum.inactive, modified_on := now }
        else m) := by
  rw [deactivate_fst_managers db now nameF mb hb, List.find?_map]
  have hfe : ((fun m : ComputeManagerORM => decide (m.name = n)) ∘ (fun m =>
      if deactivateCond nameF mb m then
        { m with status := ManagerStatusEnum.inactive, modified_on := now }
      else m)) = (fun m : ComputeManagerORM => decide (m.name = n)) := by
    funext m
    by_cases hc : deactivateCond nameF mb m <;> simp [Function.comp, hc]
  rw [hfe]

lemma count_name_filter_map (l : List ComputeManagerORM) (p : ComputeManagerORM → Bool)
    (m : ComputeManagerORM) (hm : m ∈ l) (hnd : (l.map (fun x => x.name)).Nodup) :
    ((l.filter p).map (fun x => x.name)).count m.name = if p m then 1 else 0 := by
  induction l with
  | nil => cases hm
  | cons a t ih =>
    rw [List.map_cons, List.nodup_cons] at hnd
    rcases List.mem_cons.mp hm with h | hmt
    · subst h
      have hnotin : m.name ∉ (t.filter p).map (fun x => x.name) := by
        intro hc
        rcases List.mem_map.mp hc with ⟨b, hb, hbn⟩
        exact hnd.1 (hbn ▸ List.mem_map_of_mem _ (List.mem_of_mem_filter hb))
      by_cases hp : p m
      · rw [List.filter_cons, if_pos hp, List.map_cons, List.count_cons, if_pos hp,
          List.count_eq_zero.mpr hnotin]
        simp
      · rw [List.filter_cons, if_neg hp, if_neg hp]
        exact List.count_eq_zero.mpr hnotin
    · have hanem : a.name ≠ m.name := by
        intro h
        exact hnd.1 (h ▸ List.mem_map_of_mem _ hmt)
      have ht := ih hmt hnd.2
      by_cases hp : p a
      · rw [List.filter_cons, if_pos hp, List.map_cons, List.count_cons, ht]
        simp [hanem]
      · rw [List.filter_cons, if_neg hp]
        exact ht

lemma specDedup_cons (x : String) (xs : List String) :
    specDedup (x :: xs) = x :: specDedup (xs.filter (fun y => y ≠ x)) := by
  rw [specDedup]

lemma pyDedup_go (l acc : List String) :
    l.foldl (fun acc x => if x ∈ acc then acc else acc ++ [x]) acc =
      acc ++ specDedup (l.filter (fun y => y ∉ acc)) := by
  induction l generalizing acc with
  | nil => simp [specDedup]
  | cons x xs ih =>
    rw [List.foldl_cons]
    by_cases hx : x ∈ acc
    · rw [if_pos hx, ih, List.filter_cons, if_neg (by simp [hx])]
    · rw [if_neg hx, ih, List.filter_cons, if_pos (by simp [hx]), specDedup_cons]
      have hpred : xs.filter (fun y => decide (y ∉ acc ++ [x])) =
          (xs.filter (fun y => decide (y ∉ acc))).filter (fun y => decide (y ≠ x)) := by
        rw [List.filter_filter]
        congr 1
        funext y
        by_cases h1 : y ∈ acc
        · simp [h1]
        · by_cases h2 : y = x <;> simp [h1, h2]
      rw [hpred]
      simp

lemma pyDedup_eq_specDedup (l : List String) : pyDedup l = specDedup l := by
  rw [pyDedup, pyDedup_go]
  simp

lemma specDedup_mem : ∀ (l : List String) (x : String), x ∈ specDedup l ↔ x ∈ l
  | [], x => by simp [specDedup]
  | y :: ys, x => by
    rw [specDedup_cons, List.mem_cons, List.mem_cons,
      specDedup_mem (ys.filter (fun z => z ≠ y)) x, List.mem_filter]
    by_cases hxy : x = y
    · simp [hxy]
    · simp [hxy]
termination_by l _ => l.length
decreasing_by
  simp only [List.length_cons]
  exact Nat.lt_succ_of_le (List.length_filter_le _ _)

lemma specDedup_nodup : ∀ l : List String, (specDedup l).Nodup
  | [] => by simp [specDedup]
  | y :: ys => by
    rw [specDedup_cons]
    refine List.nodup_cons.mpr ⟨?_, specDedup_nodup (ys.filter (fun z => z ≠ y))⟩
    intro hy
    have hmem := (specDedup_mem _ y).mp hy
    rw [List.mem_filter] at hmem
    simp at hmem
termination_by l => l.length
decreasing_by
  simp only [List.length_cons]
  exact Nat.lt_succ_of_le (List.length_filter_le _ _)

lemma dictInsert_keys_mem (m : List (String × Option String)) (k : String)
    (v : Option String) (h : k ∈ m.map (fun p => p.1)) :
    (dictInsert m k v).map (fun p => p.1) = m.map (fun p => p.1) := by
  rcases List.mem_map.mp h with ⟨p, hp, hpk⟩
  have hany : m.any (fun p => p.1 = k) = true :=
    List.any_eq_true.mpr ⟨p, hp, by simp [hpk]⟩
  rw [dictInsert, if_pos hany, List.map_map]
  have hfe : ((fun p : String × Option String => p.1) ∘
      (fun p => if p.1 = k then (p.1, v) else p)) =
      (fun p : String × Option String => p.1) := by
    funext q
    by_cases hc : q.1 = k <;> simp [hc]
  rw [hfe]

lemma dictInsert_keys_not_mem (m : List (String × Option String)) (k : String)
    (v : Option String) (h : k ∉ m.map (fun p => p.1)) :
    (dictInsert m k v).map (fun p => p.1) = m.map (fun p => p.1) ++ [k] := by
  have hany : ¬ m.any (fun p => p.1 = k) = true := by
    intro hc
    rcases List.any_eq_true.mp hc with ⟨p, hp, hpk⟩
    exact h (List.mem_map.mpr ⟨p, hp, by simpa using hpk⟩)
  rw [dictInsert, if_neg hany, List.map_append]
  simp

lemma dictInsert_mem_cases (m : List (String × Option String)) (k : String)
    (v : Option String) (p : String × Option String) (hp : p ∈ dictInsert m k v) :
    p ∈ m ∨ p = (k, v) := by
  rw [dictInsert] at hp
  by_cases hany : m.any (fun p => p.1 = k) = true
  · rw [if_pos hany] at hp
    rcases List.mem_map.mp hp with ⟨q, hq, hqe⟩
    by_cases hqk : q.1 = k
    · right
      rw [← hqe]
      simp [hqk]
    · left
      rw [← hqe, if_neg hqk]
      exact hq
  · rw [if_neg hany] at hp
    rcases List.mem_append.mp hp with h | h
    · exact Or.inl h
    · right
      simpa using h

/-- One step of the programs dict comprehension, factored out so the fold can
be reasoned about. -/
def progFold (ps acc : List (String × Option String)) : List (String × Option String) :=
  ps.foldl (fun acc p => if 0 < p.1.length then dictInsert acc (pyLower p.1) p.2 else acc) acc

lemma pyProgramsComp_eq_progFold (ps : List (String × Option String)) :
    pyProgramsComp ps = progFold ps [] := rfl

lemma progFold_inv (P : List (String × Option String)) :
    ∀ (ps acc : List (String × Option String)),
      (∀ q ∈ ps, q ∈ P) →
      (acc.map (fun p => p.1)).Nodup →
      (∀ p ∈ acc, ∃ q ∈ P, 0 < q.1.length ∧ p = (pyLower q.1, q.2)) →
      ((progFold ps acc).map (fun p => p.1)).Nodup ∧
      (∀ p ∈ progFold ps acc, ∃ q ∈ P, 0 < q.1.length ∧ p = (pyLower q.1, q.2)) ∧
      (∀ k, k ∈ acc.map (fun p => p.1) → k ∈ (progFold ps acc).map (fun p => p.1)) ∧
      (∀ q ∈ ps, 0 < q.1.length → pyLower q.1 ∈ (progFold ps acc).map (fun p => p.1))
  | [], acc => by
    intro hps hnd hprov
    refine ⟨hnd, hprov, fun k hk => hk, ?_⟩
    intro q hq
    cases hq
  | q :: ps, acc => by
    intro hps hnd hprov
    by_cases hq : 0 < q.1.length
    · have hstep : progFold (q :: ps) acc =
          progFold ps (dictInsert acc (pyLower q.1) q.2) := by
        rw [progFold, List.foldl_cons, if_pos hq]
        rfl
      have hnd2 : ((dictInsert acc (pyLower q.1) q.2).map (fun p => p.1)).Nodup := by
        by_cases hk : pyLower q.1 ∈ acc.map (fun p => p.1)
        · rw [dictInsert_keys_mem acc _ _ hk]
          exact hnd
        · rw [dictInsert_keys_not_mem acc _ _ hk]
          simp [List.nodup_append, hnd, hk]
      have hprov2 : ∀ p ∈ dictInsert acc (pyLower q.1) q.2,
          ∃ q2 ∈ P, 0 < q2.1.length ∧ p = (pyLower q2.1, q2.2) := by
        intro p hp
        rcases dictInsert_mem_cases acc _ _ p hp with h | h
        · exact hprov p h
        · exact ⟨q, hps q (List.mem_cons_self q ps), hq, h⟩
      have hsub : ∀ k, k ∈ acc.map (fun p => p.1) →
          k ∈ (dictInsert acc (pyLower q.1) q.2).map (fun p => p.1) := by
        intro k hk
        by_cases hkq : pyLower q.1 ∈ acc.map (fun p => p.1)
        · rw [dictInsert_keys_mem acc _ _ hkq]
          exact hk
        · rw [dictInsert_keys_not_mem acc _ _ hkq]
          exact List.mem_append.mpr (Or.inl hk)
      have hself : pyLower q.1 ∈ (dictInsert acc (pyLower q.1) q.2).map (fun p => p.1) := by
        by_cases hkq : pyLower q.1 ∈ acc.map (fun p => p.1)
        · rw [dictInsert_keys_mem acc _ _ hkq]
          exact hkq
        · rw [dictInsert_keys_not_mem acc _ _ hkq]
          exact List.mem_append.mpr (Or.inr (by simp))
      obtain ⟨c1, c2, c3, c4⟩ :=
        progFold_inv P ps (dictInsert acc (pyLower q.1) q.2)
          (fun q2 hq2 => hps q2 (List.mem_cons_of_mem q hq2)) hnd2 hprov2
      rw [hstep]
      refine ⟨c1, c2, fun k hk => c3 k (hsub k hk), ?_⟩
      intro q2 hq2 hlen
      rcases List.mem_cons.mp hq2 with h | h
      · subst h
        exact c3 _ hself
      · exact c4 q2 h hlen
    · have hstep : progFold (q :: ps) acc = progFold ps acc := by
        rw [progFold, List.foldl_cons, if_neg hq]
        rfl
      obtain ⟨c1, c2, c3, c4⟩ :=
        progFold_inv P ps acc (fun q2 hq2 => hps q2 (List.mem_cons_of_mem q hq2)) hnd hprov
      rw [hstep]
      refine ⟨c1, c2, c3, ?_⟩
      intro q2 hq2 hlen
      rcases List.mem_cons.mp hq2 with h | h
      · subst h
        exact absurd hlen hq
      · exact c4 q2 h hlen

lemma find?_eq_of_nodup_names (l : List ComputeManagerORM) (m : ComputeManagerORM)
    (hm : m ∈ l) (hnd : (l.map (fun x => x.name)).Nodup) :
    l.find? (fun x => x.name = m.name) = some m := by
  induction l with
  | nil => cases hm
  | cons a t ih =>
    rw [List.map_cons, List.nodup_cons] at hnd
    rcases List.mem_cons.mp hm with h | hmt
    · subst h
      rw [List.find?_cons_of_pos _ (by simp)]
    · have hne : a.name ≠ m.name := fun h => hnd.1 (h ▸ List.mem_map_of_mem _ hmt)
      rw [List.find?_cons_of_neg _ (by simp [hne])]
      exact ih hmt hnd.2

/-! ## Claim theorems -/

/-- C9: deactivate called with neither a name set nor a staleness cutoff
supplied returns the empty list and changes no stored state at all: the
result state is the input state, so no manager row, no log and no task
assignment is modified. -/
theorem deactivate_no_filter_noop (db : DBState) (now : Nat) :
    deactivate db now none none = (db, []) := by
  simp [deactivate, nameSupplied]

/-- C10: a get call whose name list is longer than the configured manager
response limit fails with RequestTooLargeError; the outcome does not depend
on the stored state at all (nothing is read), and being a read-only
operation it leaves all state unchanged. -/
theorem get_over_limit (db : DBState) (lim : Nat) (names : List String) (mok : Bool)
    (h : lim < names.length) :
    get db lim names mok = Except.error ManagerError.requestTooLarge ∧
    ∀ db2, get db2 lim names mok = get db lim names mok := by
  refine ⟨?_, ?_⟩
  · simp [get, h]
  · intro db2
    simp [get, h]

/-- Witness for get_over_limit: two names against a limit of one. -/
theorem get_over_limit_witness :
    get dbA 1 ["a", "b"] true = Except.error ManagerError.requestTooLarge :=
  (get_over_limit dbA 1 ["a", "b"] true (by decide)).1

/-- C8: when after filtering blanks the tag list or the program mapping is
empty, activate fails with the validation error InvalidManagerConfig; the
outcome is the same for every stored state, so the rejection happens before
any persistence is touched and no stored state changes. -/
theorem activate_empty_config_rejected (db : DBState) (now : Nat) (nd : ManagerName)
    (mv qv : String) (u : Option String) (programs : List (String × Option String))
    (tags : List String)
    (h : tags.filter (fun x => 0 < x.length) = [] ∨ pyProgramsComp programs = []) :
    activate db now nd mv qv u programs tags = Except.error ManagerError.invalidManagerConfig ∧
    ∀ db2, activate db2 now nd mv qv u programs tags = activate db now nd mv qv u programs tags := by
  rcases h with h | h
  · constructor
    · simp [activate, h]
    · intro db2
      simp [activate, h]
  · by_cases ht : ((tags.filter (fun x => 0 < x.length)).map pyLower).length = 0
    · constructor
      · simp [activate, ht]
      · intro db2
        simp [activate, ht]
    · constructor
      · simp [activate, ht, h]
      · intro db2
        simp [activate, ht, h]

/-- Witness for activate_empty_config_rejected: a single blank tag filters to
an empty tag list and is rejected. -/
theorem activate_empty_config_rejected_witness :
    activate dbA 0 ⟨"n", "c", "h"⟩ "v" "w" none [("p", none)] [""] =
      Except.error ManagerError.invalidManagerConfig :=
  (activate_empty_config_rejected dbA 0 ⟨"n", "c", "h"⟩ "v" "w" none [("p", none)] [""]
    (Or.inl (by decide))).1

/-- C3: evaluating update_resource_stats at a concrete input shows the code
slip the spec flags: every other resource counter is stored exactly as
supplied and modified_on becomes the current time, but total_task_walltime
is stored wrapped in a one-element tuple — not as the plain value the claim
(and the spec's intent) requires. -/
theorem update_resource_stats_tuple_artifact :
    (update_resource_stats dbA 9 "m1" 1 5 2 3 4).toOption.map
        (fun db => db.managers.map (fun m =>
          (m.total_worker_walltime, m.total_task_walltime, m.active_tasks,
            m.active_cores, m.active_memory, m.modified_on))) =
      some [(1, PyVal.tuple1 5, 2, 3, 4, 9)] ∧
    PyVal.tuple1 5 ≠ PyVal.plain 5 := by
  refine ⟨by rfl, by decide⟩

/-- C1 counterexample: with both filters supplied the source applies their
conjunction, not the claimed disjunction. The active manager m1 satisfies
the claimed condition (its name is in the requested set, though it is not
stale), yet deactivate transitions nothing and returns no name: the state is
returned unchanged. -/
theorem deactivate_or_filter_counterexample :
    ((mkMgr "m1" ManagerStatusEnum.active 10).status = ManagerStatusEnum.active ∧
      ((mkMgr "m1" ManagerStatusEnum.active 10).name ∈ ["m1"] ∨
        (mkMgr "m1" ManagerStatusEnum.active 10).modified_on < 5)) ∧
    (deactivate dbA 20 (some ["m1"]) (some 5)).2 = [] ∧
    (deactivate dbA 20 (some ["m1"]) (some 5)).1 = dbA := by decide

/-- C1 (amended): for every call to deactivate with at least one filter
supplied, exactly the managers whose status is active and that satisfy the
conjunction of the supplied filter conditions (name in the given name set
AND, when a cutoff is also given, modified_on older than the cutoff — the
source combines the two filters with AND, not OR) are transitioned to
inactive with modified_on set to now; the call returns exactly the names of
those transitioned managers, and for each such name (and no other, in
particular not for requested-but-already-inactive names) the task
subsystem's release-tasks-for-manager operation is invoked once within the
same recovery step. -/
theorem deactivate_transitions_conjunction (db : DBState) (now : Nat)
    (nameF : Option (List String)) (mb : Option Nat)
    (hsup : nameSupplied nameF = true ∨ mb ≠ none)
    (hnd : (db.managers.map (fun m => m.name)).Nodup) :
    (∀ m ∈ db.managers,
        (m.name ∈ (deactivate db now nameF mb).2 ↔ matchesSuppliedFilters nameF mb m)) ∧
    (deactivate db now nameF mb).1.managers.length = db.managers.length ∧
    (∀ i (hi : i < db.managers.length)
        (hi2 : i < (deactivate db now nameF mb).1.managers.length),
        (matchesSuppliedFilters nameF mb (db.managers[i]) →
          (deactivate db now nameF mb).1.managers[i] =
            { db.managers[i] with
                status := ManagerStatusEnum.inactive, modified_on := now }) ∧
        (¬ matchesSuppliedFilters nameF mb (db.managers[i]) →
          (deactivate db now nameF mb).1.managers[i] = db.managers[i])) ∧
    (deactivate db now nameF mb).1.taskReleases =
      db.taskReleases ++ (deactivate db now nameF mb).2 ∧
    (∀ m ∈ db.managers,
        (matchesSuppliedFilters nameF mb m →
          (deactivate db now nameF mb).2.count m.name = 1) ∧
        (¬ matchesSuppliedFilters nameF mb m →
          (deactivate db now nameF mb).2.count m.name = 0)) ∧
    (deactivate db now nameF mb).1.nextId = db.nextId := by
  have hb := branch_false_of_sup nameF mb hsup
  refine ⟨?_, ?_, ?_, ?_, ?_, ?_⟩
  · intro m hm
    rw [deactivate_snd db now nameF mb hb]
    simp only [List.mem_map, List.mem_filter]
    constructor
    · rintro ⟨m2, ⟨hm2, hc⟩, hname⟩
      have heq := List.inj_on_of_nodup_map hnd hm2 hm hname
      subst heq
      exact (deactivateCond_iff nameF mb _).mp hc
    · intro hmat
      exact ⟨m, ⟨hm, (deactivateCond_iff nameF mb m).mpr hmat⟩, rfl⟩
  · rw [deactivate_fst_managers db now nameF mb hb]
    simp
  · intro i hi hi2
    have hmg := deactivate_fst_managers db now nameF mb hb
    constructor
    · intro hmt
      simp only [hmg, List.getElem_map]
      rw [if_pos ((deactivateCond_iff nameF mb _).mpr hmt)]
    · intro hmt
      simp only [hmg, List.getElem_map]
      rw [if_neg (fun hc => hmt ((deactivateCond_iff nameF mb _).mp hc))]
  · exact deactivate_fst_taskReleases db now nameF mb hb
  · intro m hm
    constructor
    · intro hmt
      rw [deactivate_snd db now nameF mb hb,
        count_name_filter_map db.managers _ m hm hnd,
        if_pos ((deactivateCond_iff nameF mb m).mpr hmt)]
    · intro hmt
      rw [deactivate_snd db now nameF mb hb,
        count_name_filter_map db.managers _ m hm hnd,
        if_neg (fun hc => hmt ((deactivateCond_iff nameF mb m).mp hc))]
  · exact deactivate_fst_nextId db now nameF mb

/-- Witness for deactivate_transitions_conjunction: against the store dbC,
with a name set and a cutoff both supplied, the task-release journal is
extended by exactly the returned names in the same step. -/
theorem deactivate_transitions_conjunction_witness :
    (deactivate dbC 20 (some ["m1", "m2", "m3"]) (some 5)).1.taskReleases =
      dbC.taskReleases ++ (deactivate dbC 20 (some ["m1", "m2", "m3"]) (some 5)).2 :=
  (deactivate_transitions_conjunction dbC 20 (some ["m1", "m2", "m3"]) (some 5)
    (Or.inl (by decide)) (by decide)).2.2.2.1

/-- C5: update_resource_stats fails with UnknownManagerError when the name
resolves to no manager, fails with InactiveManagerError when the manager is
not active, and — names being unique — a heartbeat to any name just
transitioned by a deactivate call always fails with InactiveManagerError,
never silently succeeds. In this embedding an error result means the
transaction rolled back, so in both error cases all manager state and the
log are unchanged. -/
theorem update_resource_stats_error_cases (db : DBState) (now now2 : Nat) (n : String)
    (a b c d e : Int) :
    (db.managers.find? (fun m => m.name = n) = none →
      update_resource_stats db now n a b c d e =
        Except.error ManagerError.unknownManager) ∧
    (∀ m, db.managers.find? (fun m => m.name = n) = some m →
      m.status ≠ ManagerStatusEnum.active →
      update_resource_stats db now n a b c d e =
        Except.error ManagerError.inactiveManager) ∧
    ((db.managers.map (fun m => m.name)).Nodup →
      ∀ nameF mb, n ∈ (deactivate db now nameF mb).2 →
        update_resource_stats (deactivate db now nameF mb).1 now2 n a b c d e =
          Except.error ManagerError.inactiveManager) := by
  refine ⟨?_, ?_, ?_⟩
  · intro h
    simp [update_resource_stats, h]
  · intro m hm hst
    simp [update_resource_stats, hm, hst]
  · intro hnd nameF mb hmem
    by_cases hb : (!nameSupplied nameF && mb.isNone) = true
    · rw [show deactivate db now nameF mb = (db, []) from by simp [deactivate, hb]] at hmem
      cases hmem
    · have hb2 : (!nameSupplied nameF && mb.isNone) = false := Bool.eq_false_iff.mpr hb
      rw [deactivate_snd db now nameF mb hb2] at hmem
      rcases List.mem_map.mp hmem with ⟨m0, hm0f, hm0n⟩
      have hm0 : m0 ∈ db.managers := List.mem_of_mem_filter hm0f
      have hc0 : deactivateCond nameF mb m0 = true := List.of_mem_filter hm0f
      have hfind : db.managers.find? (fun x => x.name = n) = some m0 := by
        rw [← hm0n]
        exact find?_eq_of_nodup_names db.managers m0 hm0 hnd
      have hfd := deactivate_find? db now nameF mb n hb2
      rw [hfind] at hfd
      simp only [Option.map_some', if_pos hc0] at hfd
      simp [update_resource_stats, hfd]

/-- Witness for update_resource_stats_error_cases: a heartbeat for an unknown
name fails with the unknown-manager error. -/
theorem update_resource_stats_error_cases_witness :
    update_resource_stats dbB 1 "zz" 1 2 3 4 5 =
      Except.error ManagerError.unknownManager :=
  (update_resource_stats_error_cases dbB 1 0 "zz" 1 2 3 4 5).1 (by decide)

/-- C4: manager status is monotonic. Starting from a store with unique names
in which the manager at position i is inactive, no operation of the
subsystem — a successful activate, a successful update_resource_stats, or
any deactivate — ever gives that manager the active status again (activate
leaves existing rows untouched; the other two keep the row's name and leave
it inactive); hence a manager transitions active to inactive at most once
per registration. -/
theorem manager_status_monotonic (db : DBState)
    (hnd : (db.managers.map (fun m => m.name)).Nodup)
    (i : Nat) (hi : i < db.managers.length)
    (hinact : db.managers[i].status = ManagerStatusEnum.inactive) :
    (∀ now nd mv qv u programs tags db2 newid,
        activate db now nd mv qv u programs tags = Except.ok (db2, newid) →
        ∃ hi2 : i < db2.managers.length, db2.managers[i] = db.managers[i]) ∧
    (∀ now n a b c d e db2,
        update_resource_stats db now n a b c d e = Except.ok db2 →
        ∃ hi2 : i < db2.managers.length,
          db2.managers[i].name = db.managers[i].name ∧
          db2.managers[i].status = ManagerStatusEnum.inactive) ∧
    (∀ now nameF mb,
        ∃ hi2 : i < (deactivate db now nameF mb).1.managers.length,
          ((deactivate db now nameF mb).1.managers[i]).name = db.managers[i].name ∧
          ((deactivate db now nameF mb).1.managers[i]).status =
            ManagerStatusEnum.inactive) := by
  refine ⟨?_, ?_, ?_⟩
  · intro now nd mv qv u programs tags db2 newid hok
    by_cases h1 : ((tags.filter (fun x => 0 < x.length)).map pyLower).length = 0
    · simp only [activate] at hok
      rw [if_pos h1] at hok
      cases hok
    · by_cases h2 : (pyProgramsComp programs).length = 0
      · simp only [activate] at hok
        rw [if_neg h1, if_pos h2] at hok
        cases hok
      · by_cases h3 : 0 < (db.managers.filter (fun m => m.name = nd.fullname)).length
        · simp only [activate] at hok
          rw [if_neg h1, if_neg h2, if_pos h3] at hok
          cases hok
        · simp only [activate] at hok
          rw [if_neg h1, if_neg h2, if_neg h3] at hok
          injection hok with hok2
          injection hok2 with hdb2 hnew
          subst hdb2
          refine ⟨by simp; omega, ?_⟩
          exact List.getElem_append_left hi
  · intro now n a b c d e db2 hok
    cases hfind : db.managers.find? (fun m => m.name = n) with
    | none => simp [update_resource_stats, hfind] at hok
    | some mgr =>
      by_cases hst : mgr.status ≠ ManagerStatusEnum.active
      · simp [update_resource_stats, hfind, hst] at hok
      · push_neg at hst
        simp [update_resource_stats, hfind, hst] at hok
        subst hok
        refine ⟨by simpa using hi, ?_⟩
        simp only [List.getElem_map]
        by_cases hni : db.managers[i].name = n
        · exfalso
          have hmem : mgr ∈ db.managers := List.mem_of_find?_eq_some hfind
          have hname : mgr.name = n := by simpa using List.find?_some hfind
          have heq : db.managers[i] = mgr :=
            List.inj_on_of_nodup_map hnd (List.getElem_mem hi) hmem
              (by rw [hni, hname])
          rw [heq, hst] at hinact
          cases hinact
        · rw [if_neg hni]
          exact ⟨rfl, hinact⟩
  · intro now nameF mb
    by_cases hb : (!nameSupplied nameF && mb.isNone) = true
    · rw [show deactivate db now nameF mb = (db, []) from by simp [deactivate, hb]]
      exact ⟨hi, rfl, hinact⟩
    · have hb2 : (!nameSupplied nameF && mb.isNone) = false := Bool.eq_false_iff.mpr hb
      rw [deactivate_fst_managers db now nameF mb hb2]
      refine ⟨by simpa using hi, ?_⟩
      simp only [List.getElem_map]
      by_cases hc : deactivateCond nameF mb (db.managers[i]) = true
      · rw [if_pos hc]
        exact ⟨rfl, rfl⟩
      · rw [if_neg hc]
        exact ⟨rfl, hinact⟩

/-- Witness for manager_status_monotonic: an inactive manager explicitly
named in a deactivate call stays inactive and keeps its name. -/
theorem manager_status_monotonic_witness :
    ∃ hi2 : 0 < (deactivate dbB 9 (some ["m0"]) none).1.managers.length,
      ((deactivate dbB 9 (some ["m0"]) none).1.managers[0]).name = "m0" ∧
      ((deactivate dbB 9 (some ["m0"]) none).1.managers[0]).status =
        ManagerStatusEnum.inactive := by
  obtain ⟨hi2, h1, h2⟩ :=
    (manager_status_monotonic dbB (by decide) 0 (by decide) (by decide)).2.2
      9 (some ["m0"]) none
  refine ⟨hi2, ?_, h2⟩
  rw [h1]
  rfl

/-- C2 (amended): every successful update_resource_stats call appends exactly
one new ManagerLog entry to the manager's log, and that entry carries the
post-update counter values — the newly supplied resource counters (with
total_task_walltime in its tuple-wrapped stored form) together with the
unchanged claimed/successes/failures/rejected bookkeeping counters — and the
new timestamp of the update (the time at which the update itself runs, not a
caller-supplied time). -/
theorem update_resource_stats_log_snapshot (db : DBState) (now : Nat) (n : String)
    (a b c d e : Int) (m : ComputeManagerORM)
    (hfind : db.managers.find? (fun x => x.name = n) = some m)
    (hst : m.status = ManagerStatusEnum.active) :
    ∃ db2, update_resource_stats db now n a b c d e = Except.ok db2 ∧
      ∃ m2, db2.managers.find? (fun x => x.name = n) = some m2 ∧
        m2.log = m.log ++
          [{ claimed := m.claimed
             successes := m.successes
             failures := m.failures
             rejected := m.rejected
             total_worker_walltime := a
             total_task_walltime := PyVal.tuple1 b
             active_tasks := c
             active_cores := d
             active_memory := e
             timestamp := now }] ∧
        m2.modified_on = now := by
  have hmn : m.name = n := by simpa using List.find?_some hfind
  have hok : update_resource_stats db now n a b c d e =
      Except.ok { db with managers := db.managers.map (fun x =>
        if x.name = n then
          save_snapshot { m with
            total_worker_walltime := a
            total_task_walltime := PyVal.tuple1 b
            active_tasks := c
            active_cores := d
            active_memory := e
            modified_on := now }
        else x) } := by
    simp [update_resource_stats, hfind, hst]
  refine ⟨_, hok, ?_⟩
  have hfe : ((fun x : ComputeManagerORM => decide (x.name = n)) ∘ (fun x =>
      if x.name = n then
        save_snapshot { m with
          total_worker_walltime := a
          total_task_walltime := PyVal.tuple1 b
          active_tasks := c
          active_cores := d
          active_memory := e
          modified_on := now }
      else x)) = (fun x : ComputeManagerORM => decide (x.name = n)) := by
    funext x
    by_cases hx : x.name = n
    · simp [Function.comp, hx, save_snapshot, hmn]
    · simp [Function.comp, hx]
  refine ⟨save_snapshot { m with
      total_worker_walltime := a
      total_task_walltime := PyVal.tuple1 b
      active_tasks := c
      active_cores := d
      active_memory := e
      modified_on := now }, ?_, ?_, ?_⟩
  · show (db.managers.map _).find? _ = _
    rw [List.find?_map, hfe, hfind, Option.map_some', if_pos hmn]
  · simp [save_snapshot]
  · simp [save_snapshot]

/-- Witness for update_resource_stats_log_snapshot: a concrete heartbeat on
dbA appends exactly one entry with the supplied counters and timestamp 9. -/
theorem update_resource_stats_log_snapshot_witness :
    ∃ db2, update_resource_stats dbA 9 "m1" 1 5 2 3 4 = Except.ok db2 ∧
      ∃ m2, db2.managers.find? (fun x => x.name = "m1") = some m2 ∧
        m2.log = (mkMgr "m1" ManagerStatusEnum.active 10).log ++
          [{ claimed := 11
             successes := 7
             failures := 3
             rejected := 1
             total_worker_walltime := 1
             total_task_walltime := PyVal.tuple1 5
             active_tasks := 2
             active_cores := 3
             active_memory := 4
             timestamp := 9 }] ∧
        m2.modified_on = 9 :=
  update_resource_stats_log_snapshot dbA 9 "m1" 1 5 2 3 4
    (mkMgr "m1" ManagerStatusEnum.active 10) (by decide) (by decide)

/-- C2 counterexample: the log entry written by a successful
update_resource_stats call carries the post-update counters, not the
pre-update totals the claim states: the manager's total_worker_walltime was
100 before the update, yet the single entry appended records the newly
supplied value 1. -/
theorem update_log_pre_totals_counterexample :
    (mkMgr "m1" ManagerStatusEnum.active 10).total_worker_walltime = 100 ∧
    (update_resource_stats dbA 9 "m1" 1 5 2 3 4).toOption.map
        (fun db => db.managers.map (fun m => m.log.map
          (fun l => l.total_worker_walltime))) = some [[1]] ∧
    (1 : Int) ≠ 100 := by
  refine ⟨by rfl, by rfl, by decide⟩

/-- C6: activate fails with DuplicateManagerError when a manager with the
same name already exists — the error rolls the transaction back, so nothing
is inserted and a name is never reused; when the name is fresh, it inserts
exactly one manager record with status active carrying the newly assigned
internal identifier, and returns that identifier. Stated for requests that
pass capability validation (non-empty processed tags and programs). -/
theorem activate_unique_name (db : DBState) (now : Nat) (nd : ManagerName)
    (mv qv : String) (u : Option String) (programs : List (String × Option String))
    (tags : List String)
    (htags : (tags.filter (fun x => 0 < x.length)).map pyLower ≠ [])
    (hprogs : pyProgramsComp programs ≠ []) :
    ((∃ m ∈ db.managers, m.name = nd.fullname) →
      activate db now nd mv qv u programs tags =
        Except.error ManagerError.duplicateManager) ∧
    ((∀ m ∈ db.managers, m.name ≠ nd.fullname) →
      ∃ orm, activate db now nd mv qv u programs tags =
          Except.ok
            ({ db with
                managers := db.managers ++ [orm]
                nextId := db.nextId + 1 },
              db.nextId) ∧
        orm.name = nd.fullname ∧ orm.status = ManagerStatusEnum.active ∧
        orm.id = db.nextId) := by
  have ht0 : ¬ ((tags.filter (fun x => 0 < x.length)).map pyLower).length = 0 := by
    simpa [List.length_eq_zero] using htags
  have hp0 : ¬ (pyProgramsComp programs).length = 0 := by
    simpa [List.length_eq_zero] using hprogs
  constructor
  · rintro ⟨m, hm, hname⟩
    have hmem : m ∈ db.managers.filter (fun m => m.name = nd.fullname) :=
      List.mem_filter.mpr ⟨hm, by simp [hname]⟩
    have hfl : 0 < (db.managers.filter (fun m => m.name = nd.fullname)).length :=
      List.length_pos_of_mem hmem
    simp only [activate]
    rw [if_neg ht0, if_neg hp0, if_pos hfl]
  · intro hfresh
    have hnil : db.managers.filter (fun m => m.name = nd.fullname) = [] :=
      List.filter_eq_nil_iff.mpr (fun m hm => by simp [hfresh m hm])
    have hfl : ¬ 0 < (db.managers.filter (fun m => m.name = nd.fullname)).length := by
      simp [hnil]
    refine
      ⟨{ id := db.nextId
         name := nd.fullname
         cluster := nd.cluster
         hostname := nd.hostname
         username := u
         tags := pyDedup ((tags.filter (fun x => 0 < x.length)).map pyLower)
         programs := pyProgramsComp programs
         status := ManagerStatusEnum.active
         manager_version := mv
         qcengine_version := qv
         claimed := 0
         successes := 0
         failures := 0
         rejected := 0
         total_worker_walltime := 0
         total_task_walltime := PyVal.plain 0
         active_tasks := 0
         active_cores := 0
         active_memory := 0
         created_on := now
         modified_on := now
         log := [] }, ?_, rfl, rfl, rfl⟩
    simp only [activate]
    rw [if_neg ht0, if_neg hp0, if_neg hfl]

/-- Witness for activate_unique_name: activating a second manager named m1
against dbA fails with the duplicate-manager error. -/
theorem activate_unique_name_witness :
    activate dbA 0 ⟨"m1", "c2", "h2"⟩ "v" "w" none [("p", none)] ["t"] =
      Except.error ManagerError.duplicateManager :=
  (activate_unique_name dbA 0 ⟨"m1", "c2", "h2"⟩ "v" "w" none [("p", none)] ["t"]
    (by decide) (by decide)).1
    ⟨mkMgr "m1" ManagerStatusEnum.active 10, by decide, by decide⟩

/-- C7: a successful activate inserts exactly one row, whose tags are exactly
the lower-cased input tags with empty strings dropped and duplicates removed
preserving first-seen order (shown by equality with the independently stated
specDedup, plus no-duplicates and provenance in both directions), and whose
programs are exactly the input programs with empty keys dropped and keys
lower-cased (keys pairwise distinct, every stored pair coming from a
non-blank input entry with its key lower-cased, and every non-blank input
entry represented by its lower-cased key). -/
theorem activate_stores_processed_capabilities (db : DBState) (now : Nat)
    (nd : ManagerName) (mv qv : String) (u : Option String)
    (programs : List (String × Option String)) (tags : List String)
    (db2 : DBState) (newid : Nat)
    (hok : activate db now nd mv qv u programs tags = Except.ok (db2, newid)) :
    ∃ orm, db2.managers = db.managers ++ [orm] ∧
      orm.tags = specDedup ((tags.filter (fun x => 0 < x.length)).map pyLower) ∧
      orm.tags.Nodup ∧
      (∀ t ∈ orm.tags, ∃ s ∈ tags, 0 < s.length ∧ t = pyLower s) ∧
      (∀ s ∈ tags, 0 < s.length → pyLower s ∈ orm.tags) ∧
      (orm.programs.map (fun p => p.1)).Nodup ∧
      (∀ p ∈ orm.programs, ∃ q ∈ programs, 0 < q.1.length ∧ p = (pyLower q.1, q.2)) ∧
      (∀ q ∈ programs, 0 < q.1.length →
        pyLower q.1 ∈ orm.programs.map (fun p => p.1)) := by
  obtain ⟨cp1, cp2, -, cp4⟩ :=
    progFold_inv programs programs [] (fun q hq => hq) (by simp) (by simp)
  rw [← pyProgramsComp_eq_progFold] at cp1 cp2 cp4
  by_cases h1 : ((tags.filter (fun x => 0 < x.length)).map pyLower).length = 0
  · simp only [activate] at hok
    rw [if_pos h1] at hok
    cases hok
  · by_cases h2 : (pyProgramsComp programs).length = 0
    · simp only [activate] at hok
      rw [if_neg h1, if_pos h2] at hok
      cases hok
    · by_cases h3 : 0 < (db.managers.filter (fun m => m.name = nd.fullname)).length
      · simp only [activate] at hok
        rw [if_neg h1, if_neg h2, if_pos h3] at hok
        cases hok
      · simp only [activate] at hok
        rw [if_neg h1, if_neg h2, if_neg h3] at hok
        injection hok with hok2
        injection hok2 with hdb2 hnew
        subst hdb2
        refine ⟨_, rfl, ?_, ?_, ?_, ?_, cp1, cp2, cp4⟩
        · exact pyDedup_eq_specDedup _
        · show (pyDedup ((tags.filter (fun x => 0 < x.length)).map pyLower)).Nodup
          rw [pyDedup_eq_specDedup]
          exact specDedup_nodup _
        · intro t ht
          have ht2 : t ∈ pyDedup ((tags.filter (fun x => 0 < x.length)).map pyLower) := ht
          rw [pyDedup_eq_specDedup] at ht2
          have hmem := (specDedup_mem _ _).mp ht2
          rcases List.mem_map.mp hmem with ⟨s, hs, hrfl⟩
          rcases List.mem_filter.mp hs with ⟨hs1, hs2⟩
          exact ⟨s, hs1, by simpa using hs2, hrfl.symm⟩
        · intro s hs hlen
          show pyLower s ∈ pyDedup ((tags.filter (fun x => 0 < x.length)).map pyLower)
          rw [pyDedup_eq_specDedup]
          exact (specDedup_mem _ _).mpr
            (List.mem_map_of_mem _ (List.mem_filter.mpr ⟨hs, by simpa using hlen⟩))

/-- Witness for activate_stores_processed_capabilities: a concrete activation
with a blank tag, a mixed-case duplicate tag, a blank program key and a
case-colliding program key succeeds and stores deduplicated tags. -/
theorem activate_stores_processed_capabilities_witness :
    ∃ db2 newid,
      activate dbA 0 ⟨"n2", "c", "h"⟩ "v" "w" none
          [("P", some "1"), ("", none), ("p", some "2")] ["B", "", "a", "b"] =
        Except.ok (db2, newid) ∧
      ∃ orm, db2.managers = dbA.managers ++ [orm] ∧ orm.tags.Nodup := by
  refine ⟨_, _, rfl, ?_⟩
  obtain ⟨orm, hm, -, hnd, -, -, -, -, -⟩ :=
    activate_stores_processed_capabilities dbA 0 ⟨"n2", "c", "h"⟩ "v" "w" none
      [("P", some "1"), ("", none), ("p", some "2")] ["B", "", "a", "b"] _ _ rfl
  exact ⟨orm, hm, hnd⟩

end QCFractal
